import Mathlib

/-!
Shallow embedding of the advanced-vector repository
(src/advanced-vector/vector.h and src/unnamed/part_000).

Modelling conventions:
* The element type is a type parameter; element values are plain Lean values.
* Exceptions thrown by element operations (default construction, copy
  construction, copy assignment) and by allocation are modelled by a fuel
  oracle: a fuel of some k means that the first k fallible operations
  succeed and the next one throws; none means no operation ever throws.
  Move construction and move assignment of elements are modelled as
  non-throwing, matching the transfer-policy test
  is_nothrow_move_constructible_v that both files use before choosing moves.
* The policy flag useMove encodes the compile-time test
  (is_nothrow_move_constructible_v or not is_copy_constructible_v).
* A vector state is its capacity plus the list of live element values;
  the C++ member size_ equals the length of that list on every defined
  execution, so size is represented as elems.length.
* Undefined behaviour (out-of-range access, popping an empty vector,
  constructing over a live slot, double-destroy) is represented by an
  Option layer whose none case the theorems prove unreachable under the
  documented preconditions.
-/

/-- Exception oracle: some k = the next k fallible element operations
succeed, the one after that throws; none = nothing throws. -/
def Fuel := Option Nat
deriving DecidableEq, Repr

/-- Run one fallible operation: none = it throws, some f = it succeeds
leaving fuel f. -/
def spend : Fuel → Option Fuel
  | none => some none
  | some 0 => none
  | some (k + 1) => some (some k)

/-- State of one Vector<T>: capacity of the owned RawMemory and the list of
live element values (slots [0, size)).  size_ = elems.length. -/
structure Vec (α : Type) where
  cap : Nat
  elems : List α
deriving DecidableEq, Repr

namespace AV

/-- RawMemory<T>::Allocate via RawMemory(capacity): n == 0 allocates nothing
and cannot fail; n > 0 may throw bad_alloc (one fallible operation). -/
def allocRaw (n : Nat) (fuel : Fuel) : Option Fuel :=
  if n = 0 then some fuel else spend fuel

/-- The growth rule both files use when an insertion finds size == capacity:
new_capacity = size_ == 0 ? 1 : size_ * 2 (vector.h line 213, part_000 line
209). -/
def growCap (sz : Nat) : Nat := if sz = 0 then 1 else sz * 2

/-- std::uninitialized_copy_n / uninitialized_copy, coarse view: each element
copy is one fallible operation; on a throw the partially constructed copies
are destroyed by the algorithm itself, so externally either every value is
copied (some fuel remains) or nothing survives (none). -/
def copyN : List α → Fuel → Option Fuel
  | [], f => some f
  | _ :: rest, f =>
    match spend f with
    | none => none
    | some f1 => copyN rest f1

/-- std::uninitialized_value_construct_n, coarse view: n fallible default
constructions with internal rollback on a throw. -/
def valueConstructN : Nat → Fuel → Option Fuel
  | 0, f => some f
  | n + 1, f =>
    match spend f with
    | none => none
    | some f1 => valueConstructN n f1

/-- The element-wise copy-assignment loop of operator= (both files, lines
124-136): for i in [0, n) do dst[i] = src[i], each assignment one fallible
operation.  On success returns the updated slots and remaining fuel; on a
throw returns the slots as they are at that moment (already assigned ones
keep their new values). -/
def assignN : List α → List α → Nat → Fuel → Except (List α) (List α × Fuel)
  | dst, _, 0, fuel => .ok (dst, fuel)
  | d :: ds, s :: ss, n + 1, fuel =>
    match spend fuel with
    | none => .error (d :: ds)
    | some f =>
      match assignN ds ss n f with
      | .ok (ds1, f1) => .ok (s :: ds1, f1)
      | .error ds1 => .error (s :: ds1)
  | [], _, _ + 1, _ => .error []          -- out of range: unreachable, callers pass n within both lengths
  | d :: ds, [], _ + 1, _ => .error (d :: ds)  -- out of range: unreachable likewise

/-- Vector(const Vector& other), lines 107-112 of both files: allocate
other.size_ slots, then uninitialized_copy_n all elements.  A throw during
allocation or any copy destroys the partial copies, releases the buffer and
propagates: no object is produced. -/
def copyCtor (other : Vec α) (fuel : Fuel) : Except Unit (Vec α × Fuel) :=
  match allocRaw other.elems.length fuel with
  | none => .error ()
  | some f =>
    match copyN other.elems f with
    | none => .error ()
    | some f1 => .ok (⟨other.elems.length, other.elems⟩, f1)

/-- Vector(size_t size), lines 100-105 of both files: allocate n slots, then
uninitialized_value_construct_n.  dflt is the value a default-constructed
element holds. -/
def sizedCtor (dflt : α) (n : Nat) (fuel : Fuel) : Except Unit (Vec α × Fuel) :=
  match allocRaw n fuel with
  | none => .error ()
  | some f =>
    match valueConstructN n f with
    | none => .error ()
    | some f1 => .ok (⟨n, List.replicate n dflt⟩, f1)

/-- operator=(const Vector& rhs), lines 118-141 of both files.  The flag
same models the this != &rhs address check (true means rhs aliases the
receiver, in which case rhs and s denote the same state).  The error value
is the receiver's state at the moment the exception escapes. -/
def copyAssign (s rhs : Vec α) (same : Bool) (fuel : Fuel) :
    Except (Vec α) (Vec α × Fuel) :=
  if same then .ok (s, fuel)                 -- if (this != &rhs): nothing happens
  else if s.cap < rhs.elems.length then
    -- Vector rhs_copy(rhs); Swap(rhs_copy): adopt the full copy, or leave *this untouched on a throw
    match copyCtor rhs fuel with
    | .error _ => .error s
    | .ok (c, f) => .ok (c, f)
  else if rhs.elems.length < s.elems.length then
    -- assign the overlapping [0, rhs.size_), then destroy_n the surplus tail
    match assignN s.elems rhs.elems rhs.elems.length fuel with
    | .error es => .error ⟨s.cap, es⟩
    | .ok (es, f) => .ok (⟨s.cap, es.take rhs.elems.length⟩, f)
  else
    -- assign the overlapping [0, size_), then uninitialized_copy_n the extra tail
    match assignN s.elems rhs.elems s.elems.length fuel with
    | .error es => .error ⟨s.cap, es⟩
    | .ok (es, f) =>
      match copyN (rhs.elems.drop s.elems.length) f with
      | none => .error ⟨s.cap, es⟩
      | some f1 => .ok (⟨s.cap, es ++ rhs.elems.drop s.elems.length⟩, f1)

/-- Vector::Swap, lines 315-318 / 305-308: exchange buffer and size. -/
def vswap (a b : Vec α) : Vec α × Vec α := (b, a)

/-- Vector(Vector&& other), line 114-116 of both files: members are
default-initialised (null buffer, size 0) and then swapped with the source.
Returns (constructed vector, source afterwards). -/
def moveCtor (other : Vec α) : Vec α × Vec α :=
  vswap (⟨0, []⟩ : Vec α) other

/-- operator=(Vector&& rhs), lines 143-146 of both files: unconditional
swap.  Returns (receiver afterwards, source afterwards). -/
def moveAssign (s rhs : Vec α) : Vec α × Vec α :=
  vswap s rhs

/-- Reserve(new_capacity), lines 148-162 of both files: no-op when the
request fits; otherwise allocate, transfer all elements by the move-or-copy
policy, destroy the originals and swap the buffers in.  The error value is
the receiver's state when the exception escapes. -/
def reserve (useMove : Bool) (s : Vec α) (n : Nat) (fuel : Fuel) :
    Except (Vec α) (Vec α × Fuel) :=
  if n ≤ s.cap then .ok (s, fuel)
  else
    match allocRaw n fuel with
    | none => .error s
    | some f =>
      if useMove then .ok (⟨n, s.elems⟩, f)  -- uninitialized_move_n: moves do not throw here
      else
        match copyN s.elems f with
        | none => .error s                   -- copies rolled back, new buffer released, *this untouched
        | some f1 => .ok (⟨n, s.elems⟩, f1)

/-- Resize(new_size), lines 164-176 of both files: shrink destroys the tail;
grow reserves and then value-constructs the new tail in place. -/
def resize (useMove : Bool) (dflt : α) (s : Vec α) (n : Nat) (fuel : Fuel) :
    Except (Vec α) (Vec α × Fuel) :=
  if n = s.elems.length then .ok (s, fuel)
  else if n < s.elems.length then .ok (⟨s.cap, s.elems.take n⟩, fuel)
  else
    match reserve useMove s n fuel with
    | .error t => .error t
    | .ok (t, f) =>
      match valueConstructN (n - s.elems.length) f with
      | none => .error t                     -- tail rolled back, but the reserve already happened
      | some f1 => .ok (⟨t.cap, t.elems ++ List.replicate (n - s.elems.length) dflt⟩, f1)

end AV

/-- State of one RawMemory<T>: the opaque allocation handle (none models
nullptr) and the capacity.  Identical in both files, lines 9-89. -/
structure RawMem where
  buffer : Option Nat
  capacity : Nat
deriving DecidableEq, Repr

namespace RawMem

/-- RawMemory(RawMemory&& other), lines 21-24 of both files: the members are
initialised from std::move(other.buffer_) and std::move(other.capacity_),
which for a pointer and an integer just reads them; the source members are
NOT reset.  Returns (constructed buffer, source afterwards). -/
def moveCtor (other : RawMem) : RawMem × RawMem :=
  (⟨other.buffer, other.capacity⟩, other)

/-- operator=(RawMemory&& rhs), lines 28-34 of both files: take over the
members, then set rhs.buffer_ = nullptr and rhs.capacity_ = 0.  Returns
(receiver afterwards, source afterwards). -/
def moveAssign (_self rhs : RawMem) : RawMem × RawMem :=
  (⟨rhs.buffer, rhs.capacity⟩, ⟨none, 0⟩)

/-- RawMemory::Swap, lines 59-62 of both files. -/
def swap (a b : RawMem) : RawMem × RawMem := (b, a)

end RawMem

/-!
Slot-level model of a freshly allocated RawMemory buffer, used by the
reallocating insertion path: each slot either holds a live object (some v)
or is raw storage (none).  Constructing over a live slot, destroying a dead
slot, or touching a slot out of range is undefined behaviour, represented
by the outer Option being none.
-/

/-- Slots of one raw buffer. -/
abbrev Buf (α : Type) := List (Option α)

namespace AV

/-- Placement-new of value v into slot i: requires the slot to exist and be
raw. -/
def constructAt (b : Buf α) (i : Nat) (v : α) : Option (Buf α) :=
  match b.get? i with
  | some none => some (b.set i (some v))
  | _ => none

/-- Destructor call on slot i: requires the slot to exist and be live. -/
def destroyAt (b : Buf α) (i : Nat) : Option (Buf α) :=
  match b.get? i with
  | some (some _) => some (b.set i none)
  | _ => none

/-- std::destroy_n(b + j, n) / std::destroy over that range: destroy slots
j, j+1, ..., j+n-1 in order. -/
def destroyRange (b : Buf α) (j : Nat) : Nat → Option (Buf α)
  | 0 => some b
  | n + 1 => (destroyAt b j).bind (destroyRange · (j + 1) n)

/-- std::uninitialized_copy of the values vs into the buffer starting at
slot j.  Each copy construction is one fallible operation; when the copy of
some element throws, the algorithm itself destroys the elements it had
already constructed, then lets the exception escape (inner Except.error
carries the buffer after that internal rollback). -/
def uninitCopyInto (b : Buf α) (j : Nat) (vs : List α) (fuel : Fuel) :
    Option (Except (Buf α) (Buf α × Fuel)) :=
  match vs with
  | [] => some (.ok (b, fuel))
  | v :: rest =>
    match spend fuel with
    | none => some (.error b)
    | some f =>
      match constructAt b j v with
      | none => none
      | some b1 =>
        match uninitCopyInto b1 (j + 1) rest f with
        | none => none
        | some (.ok r) => some (.ok r)
        | some (.error bE) => (destroyAt bE j).map .error

/-- std::uninitialized_move of the values vs into the buffer starting at
slot j, under the policy's guarantee that these moves do not throw. -/
def uninitMoveInto (b : Buf α) (j : Nat) (vs : List α) : Option (Buf α) :=
  match vs with
  | [] => some b
  | v :: rest => (constructAt b j v).bind (uninitMoveInto · (j + 1) rest)

/-- Read the values of a fully live stretch of slots; none as soon as a
raw slot is hit. -/
def readAll : Buf α → Option (List α)
  | [] => some []
  | none :: _ => none
  | some v :: rest => (readAll rest).map (v :: ·)

/-- Read the live values of slots [0, n): defined only when they are all
live (which the success path of the reallocation guarantees). -/
def liveList (b : Buf α) (n : Nat) : Option (List α) :=
  readAll (b.take n)

/-- Observable world at the moment an exception escapes an insertion: the
receiver's state, and, when a new buffer had been allocated, its slots at
the instant the RawMemory destructor releases it (the destructor frees the
raw block without destroying any object, so any slot still live here would
be leaked). -/
structure ExnSt (α : Type) where
  self : Vec α
  released : Option (Buf α)
deriving DecidableEq, Repr

end AV

/-! Operations whose text differs between the two files.  VH embeds
src/advanced-vector/vector.h, P0 embeds src/unnamed/part_000.  Everything
else in the two files is byte-identical outside Emplace, PopBack and Erase
and is embedded once, in namespace AV above. -/

namespace VH

/-- UninitializedMoveOrCopy(begin, end, dest), vector.h lines 203-209: the
if-constexpr policy choice between uninitialized_move (non-throwing here)
and uninitialized_copy. -/
def uninitializedMoveOrCopy (useMove : Bool) (b : Buf α) (j : Nat)
    (vs : List α) (fuel : Fuel) : Option (Except (Buf α) (Buf α × Fuel)) :=
  if useMove then (AV.uninitMoveInto b j vs).map (fun b1 => .ok (b1, fuel))
  else AV.uninitCopyInto b j vs fuel

/-- EmplaceRealloc(pos, args...), vector.h lines 211-241.  i = pos - cbegin().
The try block constructs the new element at slot i of the new buffer, then
transfers the [0, i) and [i, size) parts of the old buffer around it,
stepping a counter; the catch destroys slot i alone when only the new
element had been constructed (step 1), or slots [0, i] when the second
transfer threw (step 2), then releases the new buffer and rethrows.  On
success the old elements are destroyed, the buffers swapped, size
incremented, and the iterator to slot i returned. -/
def emplaceRealloc (useMove : Bool) (s : Vec α) (i : Nat) (v : α) (fuel : Fuel) :
    Option (Except (AV.ExnSt α) (Vec α × Nat × Fuel)) :=
  let newCap := AV.growCap s.elems.length
  match AV.allocRaw newCap fuel with
  | none => some (.error ⟨s, none⟩)          -- RawMemory ctor threw: no new buffer exists
  | some f0 =>
    let buf0 : Buf α := List.replicate newCap none
    match spend f0 with                      -- new (new_position) T(args...)
    | none => some (.error ⟨s, some buf0⟩)   -- step == 0: catch does nothing
    | some f1 =>
      match AV.constructAt buf0 i v with
      | none => none
      | some buf1 =>
        match uninitializedMoveOrCopy useMove buf1 0 (s.elems.take i) f1 with
        | none => none
        | some (.error bE) =>
          match AV.destroyAt bE i with       -- step == 1: destroy_n(new_position, 1)
          | none => none
          | some bX => some (.error ⟨s, some bX⟩)
        | some (.ok (buf2, f2)) =>
          match uninitializedMoveOrCopy useMove buf2 (i + 1) (s.elems.drop i) f2 with
          | none => none
          | some (.error bE) =>
            match AV.destroyRange bE 0 (i + 1) with  -- step == 2: destroy(new_begin, new_position + 1)
            | none => none
            | some bX => some (.error ⟨s, some bX⟩)
          | some (.ok (buf3, f3)) =>
            match AV.liveList buf3 (s.elems.length + 1) with
            | none => none
            | some es => some (.ok (⟨newCap, es⟩, i, f3))

/-- Emplace(pos, args...), vector.h lines 243-262.  i = pos - cbegin().
When full it defers to EmplaceRealloc; inserting at the end placement-news
directly; otherwise it builds a temporary from the arguments (the only
fallible step, done before anything is touched), move-constructs the last
element one slot up, shifts [i, size-1) right by move assignment and moves
the temporary into slot i — all of which are non-throwing moves, realising
take i ++ v :: drop i on the live values. -/
def emplace (useMove : Bool) (s : Vec α) (i : Nat) (v : α) (fuel : Fuel) :
    Option (Except (AV.ExnSt α) (Vec α × Nat × Fuel)) :=
  if s.elems.length = s.cap then
    emplaceRealloc useMove s i v fuel
  else if i = s.elems.length then
    match spend fuel with
    | none => some (.error ⟨s, none⟩)
    | some f => some (.ok (⟨s.cap, s.elems ++ [v]⟩, i, f))
  else
    match spend fuel with                    -- T tmp(args...)
    | none => some (.error ⟨s, none⟩)
    | some f => some (.ok (⟨s.cap, s.elems.take i ++ v :: s.elems.drop i⟩, i, f))

/-- PopBack(), vector.h lines 285-289: assert(size_ > 0), destroy the last
element, decrement size.  The violated assertion (debug) or the undefined
destroy (release) is the none case. -/
def popBack (s : Vec α) : Option (Vec α) :=
  if s.elems.length = 0 then none
  else some ⟨s.cap, s.elems.dropLast⟩

/-- Erase(pos), vector.h lines 291-296: move-assign (pos, end) one slot
left (non-throwing moves; the last slot keeps its value in the value model,
now duplicated), then PopBack destroys that slot; returns pos.  The empty
case hits the assert inside PopBack (debug) or undefined behaviour. -/
def erase (s : Vec α) (i : Nat) : Option (Vec α × Nat) :=
  match s.elems.getLast? with
  | none => none
  | some lastV =>
    (popBack ⟨s.cap, (s.elems.take i ++ s.elems.drop (i + 1)) ++ [lastV]⟩).map
      (fun t => (t, i))

end VH

namespace P0

/-- Emplace(pos, args...), part_000 lines 203-252.  indx = pos - cbegin().
The reallocation branch inlines what vector.h factors out: the same new
buffer, the same placement-new of the new element at slot indx first, then
the if-constexpr choice of uninitialized_move or uninitialized_copy for the
two transfers, with the step counter going 0, 1, then 3 (step += 2) in the
copy branch; the catch destroys new_data[indx] alone when step == 1, or
slots [0, indx] when step > 1, and rethrows.  The remaining branches and
the final return begin() + indx match vector.h lines 243-262. -/
def emplace (useMove : Bool) (s : Vec α) (i : Nat) (v : α) (fuel : Fuel) :
    Option (Except (AV.ExnSt α) (Vec α × Nat × Fuel)) :=
  if s.elems.length = s.cap then
    let newCap := AV.growCap s.elems.length
    match AV.allocRaw newCap fuel with
    | none => some (.error ⟨s, none⟩)
    | some f0 =>
      let buf0 : Buf α := List.replicate newCap none
      match spend f0 with                    -- new (new_data + indx) T(args...)
      | none => some (.error ⟨s, some buf0⟩) -- step == 0: catch does nothing
      | some f1 =>
        match AV.constructAt buf0 i v with
        | none => none
        | some buf1 =>
          if useMove then
            match AV.uninitMoveInto buf1 0 (s.elems.take i) with
            | none => none
            | some buf2 =>
              match AV.uninitMoveInto buf2 (i + 1) (s.elems.drop i) with
              | none => none
              | some buf3 =>
                match AV.liveList buf3 (s.elems.length + 1) with
                | none => none
                | some es => some (.ok (⟨newCap, es⟩, i, f1))
          else
            match AV.uninitCopyInto buf1 0 (s.elems.take i) f1 with
            | none => none
            | some (.error bE) =>
              match AV.destroyAt bE i with   -- step == 1: new_data[indx].~T()
              | none => none
              | some bX => some (.error ⟨s, some bX⟩)
            | some (.ok (buf2, f2)) =>
              match AV.uninitCopyInto buf2 (i + 1) (s.elems.drop i) f2 with
              | none => none
              | some (.error bE) =>
                match AV.destroyRange bE 0 (i + 1) with  -- step == 3 > 1: destroy_n(GetAddress(), indx + 1)
                | none => none
                | some bX => some (.error ⟨s, some bX⟩)
              | some (.ok (buf3, f3)) =>
                match AV.liveList buf3 (s.elems.length + 1) with
                | none => none
                | some es => some (.ok (⟨newCap, es⟩, i, f3))
  else if i = s.elems.length then
    match spend fuel with
    | none => some (.error ⟨s, none⟩)
    | some f => some (.ok (⟨s.cap, s.elems ++ [v]⟩, i, f))
  else
    match spend fuel with                    -- T tmp(args...)
    | none => some (.error ⟨s, none⟩)
    | some f => some (.ok (⟨s.cap, s.elems.take i ++ v :: s.elems.drop i⟩, i, f))

/-- PopBack(), part_000 lines 275-278: destroy_n(end() - 1, 1) and
decrement size, with no assert; on an empty vector the destroy is
undefined behaviour (the none case). -/
def popBack (s : Vec α) : Option (Vec α) :=
  if s.elems.length = 0 then none
  else some ⟨s.cap, s.elems.dropLast⟩

/-- Erase(pos), part_000 lines 280-286: move-assign the tail one slot left,
then destroy_n(end() - 1, 1) and decrement size inline; returns
begin() + indx. -/
def erase (s : Vec α) (i : Nat) : Option (Vec α × Nat) :=
  match s.elems.getLast? with
  | none => none
  | some lastV =>
    some (⟨s.cap, ((s.elems.take i ++ s.elems.drop (i + 1)) ++ [lastV]).dropLast⟩, i)

end P0

namespace AV

/-- PushBack(value), lines 277-283 via EmplaceBack, lines 272-275: Emplace
at end().  Stated for successful calls, i.e. with the never-throwing fuel;
the fallback branch is unreachable (push at the end with fuel none always
returns ok, proved below). -/
def pushBack (useMove : Bool) (s : Vec α) (v : α) : Vec α :=
  match VH.emplace useMove s s.elems.length v none with
  | some (.ok (t, _, _)) => t
  | _ => s

/-- k consecutive successful PushBack calls starting from the
default-constructed vector, pushing vs 0, vs 1, ... -/
def pushN (useMove : Bool) (vs : Nat → α) : Nat → Vec α
  | 0 => ⟨0, []⟩
  | k + 1 => pushBack useMove (pushN useMove vs k) (vs k)

end AV

/-- Modelled from the spec (testable property for the growth schedule):
the pair (size, capacity) after k pushes, where capacity is updated by
max(1, 2 x capacity) exactly at the steps where size == capacity before
the push. -/
def specGrowth : Nat → Nat × Nat
  | 0 => (0, 0)
  | k + 1 =>
    let p := specGrowth k
    (p.1 + 1, if p.1 = p.2 then max 1 (2 * p.2) else p.2)


/-! Helper lemmas. -/

namespace AV

lemma get_len_append {β : Type} (P : List β) (x : β) (R : List β) :
    (P ++ x :: R).get? P.length = some x := by
  induction P with
  | nil => rfl
  | cons p ps ih => exact ih

lemma set_len_append {β : Type} (P : List β) (x y : β) (R : List β) :
    (P ++ x :: R).set P.length y = P ++ y :: R := by
  induction P with
  | nil => rfl
  | cons p ps ih => simp [ih]

lemma constructAt_len_append (Q R : Buf α) (v : α) :
    constructAt (Q ++ none :: R) Q.length v = some (Q ++ some v :: R) := by
  unfold constructAt
  rw [get_len_append]
  exact congrArg some (set_len_append Q none (some v) R)

lemma destroyAt_len_append (Q R : Buf α) (v : α) :
    destroyAt (Q ++ some v :: R) Q.length = some (Q ++ none :: R) := by
  unfold destroyAt
  rw [get_len_append]
  exact congrArg some (set_len_append Q (some v) none R)

/-- Non-throwing transfer into a raw stretch of the buffer: every value is
move-constructed in place. -/
lemma moveInto_struct (vs : List α) (P R : Buf α) :
    uninitMoveInto (P ++ (List.replicate vs.length none ++ R)) P.length vs
      = some (P ++ (vs.map some ++ R)) := by
  induction vs generalizing P with
  | nil => simp [uninitMoveInto]
  | cons v rest ih =>
    have hc := constructAt_len_append P (List.replicate rest.length none ++ R) v
    have ihv := ih (P ++ [some v])
    simp only [List.length_append, List.length_cons, List.length_nil, List.append_assoc,
      List.singleton_append] at ihv
    simp [uninitMoveInto, List.replicate_succ, hc, ihv]

/-- Fallible transfer into a raw stretch of the buffer: either some copy
throws and the buffer is handed back exactly as it was (the algorithm has
destroyed what it had constructed), or every value is copied in place. -/
lemma copyInto_struct (vs : List α) (P R : Buf α) (f : Fuel) :
    uninitCopyInto (P ++ (List.replicate vs.length none ++ R)) P.length vs f
      = some (.error (P ++ (List.replicate vs.length none ++ R)))
    ∨ ∃ f1, uninitCopyInto (P ++ (List.replicate vs.length none ++ R)) P.length vs f
      = some (.ok (P ++ (vs.map some ++ R), f1)) := by
  induction vs generalizing P f with
  | nil => exact .inr ⟨f, by simp [uninitCopyInto]⟩
  | cons v rest ih =>
    have hc := constructAt_len_append P (List.replicate rest.length none ++ R) v
    cases hs : spend f with
    | none =>
      exact .inl (by simp [uninitCopyInto, List.replicate_succ, hs])
    | some f2 =>
      have hd := destroyAt_len_append P (List.replicate rest.length none ++ R) v
      rcases ih (P ++ [some v]) f2 with he | ⟨f1, hok⟩
      · refine .inl ?_
        simp only [List.length_append, List.length_cons, List.length_nil,
          List.append_assoc, List.singleton_append] at he
        simp [uninitCopyInto, List.replicate_succ, hs, hc, he, hd]
      · refine .inr ⟨f1, ?_⟩
        simp only [List.length_append, List.length_cons, List.length_nil,
          List.append_assoc, List.singleton_append] at hok
        simp [uninitCopyInto, List.replicate_succ, hs, hc, hok]

/-- With the never-throwing fuel the fallible transfer always succeeds. -/
lemma copyInto_none (vs : List α) (P R : Buf α) :
    uninitCopyInto (P ++ (List.replicate vs.length none ++ R)) P.length vs none
      = some (.ok (P ++ (vs.map some ++ R), none)) := by
  induction vs generalizing P with
  | nil => simp [uninitCopyInto]
  | cons v rest ih =>
    have hc := constructAt_len_append P (List.replicate rest.length none ++ R) v
    have ihv := ih (P ++ [some v])
    simp only [List.length_append, List.length_cons, List.length_nil, List.append_assoc,
      List.singleton_append] at ihv
    simp [uninitCopyInto, List.replicate_succ, hc, ihv, spend]

/-- Destroying a fully live stretch returns it to raw storage. -/
lemma destroyRange_struct (L : List α) (P R : Buf α) :
    destroyRange (P ++ (L.map some ++ R)) P.length L.length
      = some (P ++ (List.replicate L.length none ++ R)) := by
  induction L generalizing P with
  | nil => simp [destroyRange]
  | cons v rest ih =>
    have hd := destroyAt_len_append P (rest.map some ++ R) v
    have ihv := ih (P ++ [none])
    simp only [List.length_append, List.length_cons, List.length_nil, List.append_assoc,
      List.singleton_append] at ihv
    simp [destroyRange, List.replicate_succ, hd, ihv]

end AV

namespace AV

lemma readAll_map_some (L : List α) : readAll (L.map some) = some L := by
  induction L with
  | nil => rfl
  | cons x xs ih => simp [readAll, ih]

lemma take_len_append {β : Type} (L R : List β) : (L ++ R).take L.length = L := by
  induction L with
  | nil => rfl
  | cons x xs ih => simp [ih]

lemma growCap_ge (sz : Nat) : sz + 1 ≤ growCap sz := by
  unfold growCap
  split <;> omega

end AV

namespace VH

/-- The policy-selected transfer either hands the buffer back exactly as it
was (a copy threw) or fills the raw stretch with the values. -/
lemma moveOrCopy_cases (useMove : Bool) (vs : List α) (P R : Buf α) (f : Fuel) :
    uninitializedMoveOrCopy useMove (P ++ (List.replicate vs.length none ++ R)) P.length vs f
      = some (.error (P ++ (List.replicate vs.length none ++ R)))
    ∨ ∃ f1, uninitializedMoveOrCopy useMove (P ++ (List.replicate vs.length none ++ R)) P.length vs f
      = some (.ok (P ++ (vs.map some ++ R), f1)) := by
  cases useMove with
  | true => exact .inr ⟨f, by simp [uninitializedMoveOrCopy, AV.moveInto_struct]⟩
  | false =>
    rcases AV.copyInto_struct vs P R f with h | ⟨f1, h⟩
    · exact .inl (by simp [uninitializedMoveOrCopy, h])
    · exact .inr ⟨f1, by simp [uninitializedMoveOrCopy, h]⟩

/-- Dichotomy for EmplaceRealloc: it is memory-safe, and either an
exception escapes with the receiver untouched and every slot of the new
buffer raw again at release time, or it commits the insertion with the
grown capacity and returns the insertion index. -/
lemma emplaceRealloc_cases (useMove : Bool) (s : Vec α) (i : Nat) (v : α) (fuel : Fuel)
    (hi : i ≤ s.elems.length) :
    emplaceRealloc useMove s i v fuel = some (.error ⟨s, none⟩)
    ∨ emplaceRealloc useMove s i v fuel
        = some (.error ⟨s, some (List.replicate (AV.growCap s.elems.length) none)⟩)
    ∨ ∃ f1, emplaceRealloc useMove s i v fuel
        = some (.ok (⟨AV.growCap s.elems.length, s.elems.take i ++ v :: s.elems.drop i⟩, i, f1)) := by
  obtain ⟨k, hk⟩ : ∃ k, AV.growCap s.elems.length = s.elems.length + 1 + k :=
    ⟨AV.growCap s.elems.length - (s.elems.length + 1), by
      have := AV.growCap_ge s.elems.length; omega⟩
  have hcap0 : AV.growCap s.elems.length ≠ 0 := by omega
  have halloc : ∀ f0 : Fuel, AV.allocRaw (AV.growCap s.elems.length) f0 = spend f0 := by
    intro f0
    simp [AV.allocRaw, hcap0]
  cases hs0 : spend fuel with
  | none => exact .inl (by simp [emplaceRealloc, halloc, hs0])
  | some f0 =>
    cases hs1 : spend f0 with
    | none => exact .inr (.inl (by simp [emplaceRealloc, halloc, hs0, hs1]))
    | some f1 =>
      have hsplit : List.replicate (AV.growCap s.elems.length) (none : Option α)
          = List.replicate i none ++ none :: List.replicate (s.elems.length - i + k) none := by
        have h1 : AV.growCap s.elems.length = i + ((s.elems.length - i + k) + 1) := by omega
        rw [h1, List.replicate_add, List.replicate_succ]
      have hcons : AV.constructAt
            (List.replicate (AV.growCap s.elems.length) (none : Option α)) i v
          = some (List.replicate i none
              ++ some v :: List.replicate (s.elems.length - i + k) none) := by
        rw [hsplit]
        have h := AV.constructAt_len_append (List.replicate i (none : Option α))
          (List.replicate (s.elems.length - i + k) none) v
        rwa [List.length_replicate] at h
      have hlen_take : (s.elems.take i).length = i := by
        rw [List.length_take]
        omega
      have hlen_drop : (s.elems.drop i).length = s.elems.length - i := List.length_drop i _
      -- transfer of the elements before the insertion point
      have hpre := moveOrCopy_cases useMove (s.elems.take i) []
        (some v :: List.replicate (s.elems.length - i + k) none) f1
      rw [hlen_take] at hpre
      simp only [List.nil_append, List.length_nil] at hpre
      rcases hpre with herr | ⟨f2, hok⟩
      · -- the catch for step 1 destroys the new element alone
        have hdest : AV.destroyAt
              (List.replicate i none
                ++ some v :: List.replicate (s.elems.length - i + k) none) i
            = some (List.replicate (AV.growCap s.elems.length) none) := by
          have h := AV.destroyAt_len_append (List.replicate i (none : Option α))
            (List.replicate (s.elems.length - i + k) none) v
          rw [List.length_replicate] at h
          rw [h, ← hsplit]
        refine .inr (.inl ?_)
        simp only [emplaceRealloc, halloc, hs0, hs1, hcons, herr, hdest]
      · -- transfer of the elements at and after the insertion point
        have hPlen : ((s.elems.take i).map some ++ [some v]).length = i + 1 := by
          simp only [List.length_append, List.length_map, List.length_cons,
            List.length_nil, hlen_take]
        have hm : List.replicate (s.elems.length - i + k) (none : Option α)
            = List.replicate (s.elems.length - i) none ++ List.replicate k none :=
          List.replicate_add _ _ _
        have hsuf := moveOrCopy_cases useMove (s.elems.drop i)
          ((s.elems.take i).map some ++ [some v]) (List.replicate k none) f2
        rw [hPlen, hlen_drop] at hsuf
        simp only [List.append_assoc, List.singleton_append] at hsuf
        rw [← hm] at hsuf
        rcases hsuf with herr2 | ⟨f3, hok2⟩
        · -- the catch for step 2 destroys the transferred head and the new element
          have hdr : AV.destroyRange
                ((s.elems.take i).map some
                  ++ some v :: List.replicate (s.elems.length - i + k) none) 0 (i + 1)
              = some (List.replicate (AV.growCap s.elems.length) none) := by
            have h := AV.destroyRange_struct (s.elems.take i ++ [v]) ([] : Buf α)
              (List.replicate (s.elems.length - i + k) none)
            simp only [List.length_nil, List.nil_append, List.map_append, List.map_cons,
              List.map_nil, List.length_append, List.length_cons, hlen_take,
              List.append_assoc, List.singleton_append] at h
            rw [h, ← List.replicate_add]
            congr 2
            omega
          refine .inr (.inl ?_)
          simp only [emplaceRealloc, halloc, hs0, hs1, hcons, hok, herr2, hdr]
        · -- success: the live slots of the new buffer are read back in order
          have hlive : AV.liveList
                ((s.elems.take i).map some
                  ++ some v :: ((s.elems.drop i).map some ++ List.replicate k none))
                (s.elems.length + 1)
              = some (s.elems.take i ++ v :: s.elems.drop i) := by
            have hform : (s.elems.take i).map some
                ++ some v :: ((s.elems.drop i).map some ++ List.replicate k none)
                = (s.elems.take i ++ v :: s.elems.drop i).map some
                  ++ List.replicate k none := by
              simp
            have hlen2 : ((s.elems.take i ++ v :: s.elems.drop i).map some).length
                = s.elems.length + 1 := by
              simp [hlen_take, hlen_drop]
              omega
            rw [AV.liveList, hform, ← hlen2, AV.take_len_append, AV.readAll_map_some]
          refine .inr (.inr ⟨f3, ?_⟩)
          simp only [emplaceRealloc, halloc, hs0, hs1, hcons, hok, hok2, hlive]

/-- With the never-throwing fuel the policy transfer always succeeds. -/
lemma moveOrCopy_none (useMove : Bool) (vs : List α) (P R : Buf α) :
    uninitializedMoveOrCopy useMove (P ++ (List.replicate vs.length none ++ R)) P.length vs none
      = some (.ok (P ++ (vs.map some ++ R), none)) := by
  cases useMove with
  | true => simp [uninitializedMoveOrCopy, AV.moveInto_struct]
  | false => simp [uninitializedMoveOrCopy, AV.copyInto_none]

/-- With the never-throwing fuel EmplaceRealloc always commits. -/
lemma emplaceRealloc_none (useMove : Bool) (s : Vec α) (i : Nat) (v : α)
    (hi : i ≤ s.elems.length) :
    emplaceRealloc useMove s i v none
      = some (.ok (⟨AV.growCap s.elems.length,
          s.elems.take i ++ v :: s.elems.drop i⟩, i, none)) := by
  obtain ⟨k, hk⟩ : ∃ k, AV.growCap s.elems.length = s.elems.length + 1 + k :=
    ⟨AV.growCap s.elems.length - (s.elems.length + 1), by
      have := AV.growCap_ge s.elems.length; omega⟩
  have hcap0 : AV.growCap s.elems.length ≠ 0 := by omega
  have halloc : ∀ f0 : Fuel, AV.allocRaw (AV.growCap s.elems.length) f0 = spend f0 := by
    intro f0
    simp [AV.allocRaw, hcap0]
  have hsplit : List.replicate (AV.growCap s.elems.length) (none : Option α)
      = List.replicate i none ++ none :: List.replicate (s.elems.length - i + k) none := by
    have h1 : AV.growCap s.elems.length = i + ((s.elems.length - i + k) + 1) := by omega
    rw [h1, List.replicate_add, List.replicate_succ]
  have hcons : AV.constructAt
        (List.replicate (AV.growCap s.elems.length) (none : Option α)) i v
      = some (List.replicate i none
          ++ some v :: List.replicate (s.elems.length - i + k) none) := by
    rw [hsplit]
    have h := AV.constructAt_len_append (List.replicate i (none : Option α))
      (List.replicate (s.elems.length - i + k) none) v
    rwa [List.length_replicate] at h
  have hlen_take : (s.elems.take i).length = i := by
    rw [List.length_take]
    omega
  have hlen_drop : (s.elems.drop i).length = s.elems.length - i := List.length_drop i _
  have hpre := moveOrCopy_none useMove (s.elems.take i) []
    (some v :: List.replicate (s.elems.length - i + k) none)
  rw [hlen_take] at hpre
  simp only [List.nil_append, List.length_nil] at hpre
  have hPlen : ((s.elems.take i).map some ++ [some v]).length = i + 1 := by
    simp only [List.length_append, List.length_map, List.length_cons,
      List.length_nil, hlen_take]
  have hm : List.replicate (s.elems.length - i + k) (none : Option α)
      = List.replicate (s.elems.length - i) none ++ List.replicate k none :=
    List.replicate_add _ _ _
  have hsuf := moveOrCopy_none useMove (s.elems.drop i)
    ((s.elems.take i).map some ++ [some v]) (List.replicate k none)
  rw [hPlen, hlen_drop] at hsuf
  simp only [List.append_assoc, List.singleton_append] at hsuf
  rw [← hm] at hsuf
  have hlive : AV.liveList
        ((s.elems.take i).map some
          ++ some v :: ((s.elems.drop i).map some ++ List.replicate k none))
        (s.elems.length + 1)
      = some (s.elems.take i ++ v :: s.elems.drop i) := by
    have hform : (s.elems.take i).map some
        ++ some v :: ((s.elems.drop i).map some ++ List.replicate k none)
        = (s.elems.take i ++ v :: s.elems.drop i).map some ++ List.replicate k none := by
      simp
    have hlen2 : ((s.elems.take i ++ v :: s.elems.drop i).map some).length
        = s.elems.length + 1 := by
      simp [hlen_take, hlen_drop]
      omega
    rw [AV.liveList, hform, ← hlen2, AV.take_len_append, AV.readAll_map_some]
  simp only [emplaceRealloc, halloc, spend, hcons, hpre, hsuf, hlive]

end VH

/-- The inlined Emplace of part_000 computes exactly what the factored
Emplace plus EmplaceRealloc of vector.h compute, input for input. -/
lemma P0_emplace_eq_VH (useMove : Bool) (s : Vec α) (i : Nat) (v : α) (fuel : Fuel) :
    P0.emplace useMove s i v fuel = VH.emplace useMove s i v fuel := by
  by_cases hc : s.elems.length = s.cap
  · simp only [P0.emplace, VH.emplace, VH.emplaceRealloc, VH.uninitializedMoveOrCopy,
      hc, if_true]
    cases AV.allocRaw (AV.growCap s.cap) fuel with
    | none => rfl
    | some f0 =>
      dsimp only
      cases spend f0 with
      | none => rfl
      | some f1 =>
        dsimp only
        cases AV.constructAt (List.replicate (AV.growCap s.cap) none) i v with
        | none => rfl
        | some buf1 =>
          dsimp only
          cases useMove with
          | false => simp
          | true =>
            cases hM : AV.uninitMoveInto buf1 0 (s.elems.take i) with
            | none => simp [hM]
            | some buf2 =>
              cases hM2 : AV.uninitMoveInto buf2 (i + 1) (s.elems.drop i) with
              | none => simp [hM, hM2]
              | some buf3 => simp [hM, hM2]
  · simp only [P0.emplace, VH.emplace, hc, if_false]

/-- The two PopBack bodies agree wherever either is defined. -/
lemma P0_popBack_eq_VH (s : Vec α) : P0.popBack s = VH.popBack s := rfl

/-- The two Erase bodies agree input for input. -/
lemma P0_erase_eq_VH (s : Vec α) (i : Nat) : P0.erase s i = VH.erase s i := by
  unfold P0.erase VH.erase
  cases hL : s.elems.getLast? with
  | none => rfl
  | some lastV =>
    have hne : ((s.elems.take i ++ s.elems.drop (i + 1)) ++ [lastV]).length ≠ 0 := by
      simp
    simp only [VH.popBack, hne, if_false, Option.map_some]
    rfl

namespace AV

lemma copyN_none (vs : List α) : copyN vs none = some none := by
  induction vs with
  | nil => rfl
  | cons v rest ih => simp [copyN, spend, ih]

/-- An exception escaping the assignment loop leaves exactly as many live
elements in the receiver as before (some already overwritten). -/
lemma assignN_error_length (dst src : List α) (n : Nat) (f : Fuel) (es : List α)
    (h : assignN dst src n f = .error es) : es.length = dst.length := by
  induction n generalizing dst src f es with
  | zero => simp [assignN] at h
  | succ n ih =>
    cases dst with
    | nil =>
      simp only [assignN, Except.error.injEq] at h
      rw [← h]
    | cons d ds =>
      cases src with
      | nil =>
        simp only [assignN, Except.error.injEq] at h
        rw [← h]
      | cons s ss =>
        simp only [assignN] at h
        cases hs : spend f with
        | none =>
          simp only [hs] at h
          simp only [Except.error.injEq] at h
          rw [← h]
        | some f2 =>
          simp only [hs] at h
          cases hr : assignN ds ss n f2 with
          | ok p => simp only [hr] at h; simp at h
          | error ds1 =>
            simp only [hr] at h
            simp only [Except.error.injEq] at h
            rw [← h]
            simp [ih _ _ _ _ hr]

/-- A successful assignment loop overwrites exactly the first n values. -/
lemma assignN_ok_eq (dst src : List α) (n : Nat) (f : Fuel) (es : List α) (f1 : Fuel)
    (h : assignN dst src n f = .ok (es, f1)) : es = src.take n ++ dst.drop n := by
  induction n generalizing dst src f es f1 with
  | zero =>
    simp only [assignN, Except.ok.injEq, Prod.mk.injEq] at h
    simp [← h.1]
  | succ n ih =>
    cases dst with
    | nil => simp [assignN] at h
    | cons d ds =>
      cases src with
      | nil => simp [assignN] at h
      | cons s ss =>
        simp only [assignN] at h
        cases hs : spend f with
        | none => simp only [hs] at h; simp at h
        | some f2 =>
          simp only [hs] at h
          cases hr : assignN ds ss n f2 with
          | error ds1 => simp only [hr] at h; simp at h
          | ok p =>
            obtain ⟨ds1, f3⟩ := p
            simp only [hr] at h
            simp only [Except.ok.injEq, Prod.mk.injEq] at h
            rw [← h.1]
            simp [ih _ _ _ _ _ hr]

lemma copyCtor_ok (other : Vec α) (fuel : Fuel) (t : Vec α) (f1 : Fuel)
    (h : copyCtor other fuel = .ok (t, f1)) : t = ⟨other.elems.length, other.elems⟩ := by
  unfold copyCtor at h
  cases hA : allocRaw other.elems.length fuel with
  | none => simp only [hA] at h; simp at h
  | some f =>
    simp only [hA] at h
    cases hC : copyN other.elems f with
    | none => simp only [hC] at h; simp at h
    | some f2 =>
      simp only [hC] at h
      simp only [Except.ok.injEq, Prod.mk.injEq] at h
      exact h.1.symm

lemma sizedCtor_ok (dflt : α) (n : Nat) (fuel : Fuel) (t : Vec α) (f1 : Fuel)
    (h : sizedCtor dflt n fuel = .ok (t, f1)) : t = ⟨n, List.replicate n dflt⟩ := by
  unfold sizedCtor at h
  cases hA : allocRaw n fuel with
  | none => simp only [hA] at h; simp at h
  | some f =>
    simp only [hA] at h
    cases hC : valueConstructN n f with
    | none => simp only [hC] at h; simp at h
    | some f2 =>
      simp only [hC] at h
      simp only [Except.ok.injEq, Prod.mk.injEq] at h
      exact h.1.symm

lemma reserve_error (useMove : Bool) (s : Vec α) (n : Nat) (fuel : Fuel) (e : Vec α)
    (h : reserve useMove s n fuel = .error e) : e = s := by
  by_cases hn : n ≤ s.cap
  · simp [reserve, hn] at h
  · simp only [reserve, hn, if_false] at h
    cases hA : allocRaw n fuel with
    | none =>
      simp only [hA] at h
      simp only [Except.error.injEq] at h
      exact h.symm
    | some f =>
      simp only [hA] at h
      cases useMove with
      | true => simp at h
      | false =>
        simp only [Bool.false_eq_true, if_false] at h
        cases hC : copyN s.elems f with
        | none =>
          simp only [hC] at h
          simp only [Except.error.injEq] at h
          exact h.symm
        | some f2 => simp only [hC] at h; simp at h

lemma reserve_ok (useMove : Bool) (s : Vec α) (n : Nat) (fuel : Fuel) (t : Vec α) (f1 : Fuel)
    (h : reserve useMove s n fuel = .ok (t, f1)) :
    t.elems = s.elems ∧ t.cap = (if n ≤ s.cap then s.cap else n) := by
  by_cases hn : n ≤ s.cap
  · simp only [reserve, hn, if_true, Except.ok.injEq, Prod.mk.injEq] at h
    rw [← h.1]
    simp [hn]
  · simp only [reserve, hn, if_false] at h
    cases hA : allocRaw n fuel with
    | none => simp only [hA] at h; simp at h
    | some f =>
      simp only [hA] at h
      cases useMove with
      | true =>
        simp only [if_true] at h
        simp only [Except.ok.injEq, Prod.mk.injEq] at h
        rw [← h.1]
        simp [hn]
      | false =>
        simp only [Bool.false_eq_true, if_false] at h
        cases hC : copyN s.elems f with
        | none => simp only [hC] at h; simp at h
        | some f2 =>
          simp only [hC] at h
          simp only [Except.ok.injEq, Prod.mk.injEq] at h
          rw [← h.1]
          simp [hn]

lemma resize_error (useMove : Bool) (dflt : α) (s : Vec α) (n : Nat) (fuel : Fuel) (e : Vec α)
    (h : resize useMove dflt s n fuel = .error e) :
    e.elems = s.elems ∧ (e.cap = s.cap ∨ e.cap = n) ∧ (n ≤ s.cap → e = s) := by
  by_cases h1 : n = s.elems.length
  · simp [resize, h1] at h
  · by_cases h2 : n < s.elems.length
    · simp [resize, h1, h2] at h
    · simp only [resize, h1, h2, if_false] at h
      cases hR : reserve useMove s n fuel with
      | error t =>
        simp only [hR, Except.error.injEq] at h
        have ht : t = s := reserve_error useMove s n fuel t hR
        rw [← h, ht]
        simp
      | ok p =>
        obtain ⟨t, f⟩ := p
        simp only [hR] at h
        obtain ⟨hel, hcap⟩ := reserve_ok useMove s n fuel t f hR
        cases hV : valueConstructN (n - s.elems.length) f with
        | none =>
          simp only [hV, Except.error.injEq] at h
          subst h
          refine ⟨hel, ?_, ?_⟩
          · rw [hcap]
            split <;> simp
          · intro hle
            have hc2 : t.cap = s.cap := by rw [hcap, if_pos hle]
            cases t with
            | mk tc te =>
              cases s with
              | mk sc se => simp_all
        | some f2 => simp only [hV] at h; simp at h

end AV

namespace AV

/-- Slow path of copy assignment (insufficient capacity): failure leaves
the receiver exactly as it was, success adopts a full copy of rhs whose
capacity is rhs.size_. -/
lemma copyAssign_slow (s rhs : Vec α) (fuel : Fuel) (hlt : s.cap < rhs.elems.length) :
    (∀ e, copyAssign s rhs false fuel = .error e → e = s)
    ∧ (∀ t f1, copyAssign s rhs false fuel = .ok (t, f1)
        → t = ⟨rhs.elems.length, rhs.elems⟩) := by
  constructor
  · intro e h
    simp only [copyAssign, Bool.false_eq_true, if_false, hlt, if_true] at h
    cases hC : copyCtor rhs fuel with
    | error u =>
      simp only [hC, Except.error.injEq] at h
      exact h.symm
    | ok p =>
      obtain ⟨c, f⟩ := p
      simp only [hC] at h
      simp at h
  · intro t f1 h
    simp only [copyAssign, Bool.false_eq_true, if_false, hlt, if_true] at h
    cases hC : copyCtor rhs fuel with
    | error u => simp only [hC] at h; simp at h
    | ok p =>
      obtain ⟨c, f⟩ := p
      simp only [hC, Except.ok.injEq, Prod.mk.injEq] at h
      rw [← h.1]
      exact copyCtor_ok rhs fuel c f hC

/-- In-place path of copy assignment (sufficient capacity): a mid-way
failure keeps size and capacity, though a part of the elements may already
hold the new values. -/
lemma copyAssign_inplace_error (s rhs : Vec α) (fuel : Fuel) (e : Vec α)
    (hle : rhs.elems.length ≤ s.cap)
    (h : copyAssign s rhs false fuel = .error e) :
    e.cap = s.cap ∧ e.elems.length = s.elems.length := by
  have hnlt : ¬ s.cap < rhs.elems.length := by omega
  simp only [copyAssign, Bool.false_eq_true, if_false, hnlt] at h
  by_cases hsh : rhs.elems.length < s.elems.length
  · simp only [hsh, if_true] at h
    cases hA : assignN s.elems rhs.elems rhs.elems.length fuel with
    | error es =>
      simp only [hA, Except.error.injEq] at h
      rw [← h]
      exact ⟨rfl, assignN_error_length _ _ _ _ _ hA⟩
    | ok p =>
      obtain ⟨es, f⟩ := p
      simp only [hA] at h
      simp at h
  · simp only [hsh, if_false] at h
    cases hA : assignN s.elems rhs.elems s.elems.length fuel with
    | error es =>
      simp only [hA, Except.error.injEq] at h
      rw [← h]
      exact ⟨rfl, assignN_error_length _ _ _ _ _ hA⟩
    | ok p =>
      obtain ⟨es, f⟩ := p
      simp only [hA] at h
      cases hC : copyN (rhs.elems.drop s.elems.length) f with
      | none =>
        simp only [hC, Except.error.injEq] at h
        rw [← h]
        refine ⟨rfl, ?_⟩
        have hes := assignN_ok_eq _ _ _ _ _ _ hA
        rw [hes, List.drop_length, List.append_nil, List.length_take]
        omega
      | some f2 =>
        simp only [hC] at h
        simp at h

/-- In-place path of copy assignment, success: the receiver keeps its
buffer and holds copies of all of rhs. -/
lemma copyAssign_inplace_ok (s rhs : Vec α) (fuel : Fuel) (t : Vec α) (f1 : Fuel)
    (hle : rhs.elems.length ≤ s.cap)
    (h : copyAssign s rhs false fuel = .ok (t, f1)) :
    t = ⟨s.cap, rhs.elems⟩ := by
  have hnlt : ¬ s.cap < rhs.elems.length := by omega
  simp only [copyAssign, Bool.false_eq_true, if_false, hnlt] at h
  by_cases hsh : rhs.elems.length < s.elems.length
  · simp only [hsh, if_true] at h
    cases hA : assignN s.elems rhs.elems rhs.elems.length fuel with
    | error es => simp only [hA] at h; simp at h
    | ok p =>
      obtain ⟨es, f⟩ := p
      simp only [hA, Except.ok.injEq, Prod.mk.injEq] at h
      rw [← h.1]
      have hes := assignN_ok_eq _ _ _ _ _ _ hA
      rw [hes, List.take_length]
      rw [take_len_append]
  · simp only [hsh, if_false] at h
    cases hA : assignN s.elems rhs.elems s.elems.length fuel with
    | error es => simp only [hA] at h; simp at h
    | ok p =>
      obtain ⟨es, f⟩ := p
      simp only [hA] at h
      cases hC : copyN (rhs.elems.drop s.elems.length) f with
      | none => simp only [hC] at h; simp at h
      | some f2 =>
        simp only [hC, Except.ok.injEq, Prod.mk.injEq] at h
        rw [← h.1]
        have hes := assignN_ok_eq _ _ _ _ _ _ hA
        rw [hes, List.drop_length, List.append_nil, List.take_append_drop]

lemma growCap_eq_spec (c : Nat) : growCap c = max 1 (2 * c) := by
  unfold growCap
  split <;> omega

/-- Net effect of one successful PushBack on a state satisfying the size
invariant: the value is appended, and the capacity grows by the growth rule
exactly when the buffer was full. -/
lemma pushBack_spec (useMove : Bool) (s : Vec α) (v : α) :
    pushBack useMove s v
      = ⟨if s.elems.length = s.cap then growCap s.elems.length else s.cap,
         s.elems ++ [v]⟩ := by
  unfold pushBack
  by_cases hc : s.elems.length = s.cap
  · have h := VH.emplaceRealloc_none useMove s s.elems.length v (le_refl _)
    rw [List.take_length, List.drop_length, hc] at h
    simp only [VH.emplace, hc, if_true, h]
  · simp only [VH.emplace, hc, if_false, if_pos rfl, spend]
    simp [hc]

lemma specGrowth_size (k : Nat) : (specGrowth k).1 = k := by
  induction k with
  | zero => rfl
  | succ k ih => simp [specGrowth, ih]

lemma specGrowth_le (k : Nat) : (specGrowth k).1 ≤ (specGrowth k).2 := by
  induction k with
  | zero => simp [specGrowth]
  | succ k ih =>
    simp only [specGrowth]
    split
    · omega
    · have := specGrowth_size k
      omega

end AV

namespace AV

lemma get_len_append_gen {β : Type} (P R : List β) (m : Nat) :
    (P ++ R).get? (P.length + m) = R.get? m := by
  induction P with
  | nil => simp
  | cons p ps ih => simpa [Nat.succ_add] using ih

end AV

namespace VH

/-- An exception escaping Emplace (either path) leaves the receiver as it
was and releases any new buffer with every slot already destroyed. -/
lemma emplace_error_spec (useMove : Bool) (s : Vec α) (i : Nat) (v : α) (fuel : Fuel)
    (e : AV.ExnSt α) (hi : i ≤ s.elems.length)
    (h : emplace useMove s i v fuel = some (.error e)) :
    e.self = s ∧ ∀ b ∈ e.released, ∀ o ∈ b, o = none := by
  by_cases hc : s.elems.length = s.cap
  · simp only [emplace, hc, if_true] at h
    rcases emplaceRealloc_cases useMove s i v fuel hi with h2 | h2 | ⟨f1, h2⟩
    · rw [h2] at h
      simp only [Option.some.injEq, Except.error.injEq] at h
      subst h
      exact ⟨rfl, by simp⟩
    · rw [h2] at h
      simp only [Option.some.injEq, Except.error.injEq] at h
      subst h
      refine ⟨rfl, ?_⟩
      intro b hb
      simp only [AV.ExnSt.released, Option.mem_def, Option.some.injEq] at hb
      subst hb
      intro o ho
      exact List.eq_of_mem_replicate ho
    · rw [h2] at h
      simp at h
  · simp only [emplace, hc, if_false] at h
    by_cases hie : i = s.elems.length
    · rw [if_pos hie] at h
      cases hs : spend fuel with
      | none =>
        simp only [hs, Option.some.injEq, Except.error.injEq] at h
        subst h
        exact ⟨rfl, by simp⟩
      | some f => simp only [hs] at h; simp at h
    · rw [if_neg hie] at h
      cases hs : spend fuel with
      | none =>
        simp only [hs, Option.some.injEq, Except.error.injEq] at h
        subst h
        exact ⟨rfl, by simp⟩
      | some f => simp only [hs] at h; simp at h

/-- A committed Emplace returns the insertion index and the insertion
shape, growing the capacity exactly when the buffer was full. -/
lemma emplace_ok_shape (useMove : Bool) (s : Vec α) (i : Nat) (v : α) (fuel : Fuel)
    (t : Vec α) (j : Nat) (f1 : Fuel) (hi : i ≤ s.elems.length)
    (h : emplace useMove s i v fuel = some (.ok (t, j, f1))) :
    j = i ∧ t.elems = s.elems.take i ++ v :: s.elems.drop i
    ∧ t.cap = (if s.elems.length = s.cap then AV.growCap s.elems.length else s.cap) := by
  by_cases hc : s.elems.length = s.cap
  · simp only [emplace, hc, if_true] at h
    rcases emplaceRealloc_cases useMove s i v fuel hi with h2 | h2 | ⟨f2, h2⟩
    · rw [h2] at h; simp at h
    · rw [h2] at h; simp at h
    · rw [h2] at h
      simp only [Option.some.injEq, Except.ok.injEq, Prod.mk.injEq] at h
      obtain ⟨ht, hj, _⟩ := h
      subst ht
      exact ⟨hj.symm, rfl, by rw [if_pos hc]⟩
  · simp only [emplace, hc, if_false] at h
    by_cases hie : i = s.elems.length
    · rw [if_pos hie] at h
      cases hs : spend fuel with
      | none => simp only [hs] at h; simp at h
      | some f =>
        simp only [hs, Option.some.injEq, Except.ok.injEq, Prod.mk.injEq] at h
        obtain ⟨ht, hj, _⟩ := h
        subst ht
        refine ⟨hj.symm, ?_, by rw [if_neg hc]⟩
        rw [hie, List.take_length, List.drop_length]
    · rw [if_neg hie] at h
      cases hs : spend fuel with
      | none => simp only [hs] at h; simp at h
      | some f =>
        simp only [hs, Option.some.injEq, Except.ok.injEq, Prod.mk.injEq] at h
        obtain ⟨ht, hj, _⟩ := h
        subst ht
        exact ⟨hj.symm, rfl, by rw [if_neg hc]⟩

/-- A valid Erase commits: the element at the position disappears, the tail
shifts left, the iterator to the erased slot index is returned. -/
lemma erase_spec (s : Vec α) (i : Nat) (hlt : i < s.elems.length) :
    erase s i = some (⟨s.cap, s.elems.take i ++ s.elems.drop (i + 1)⟩, i) := by
  obtain ⟨last, hlast⟩ : ∃ a, s.elems.getLast? = some a := by
    cases hL : s.elems.getLast? with
    | none =>
      rw [List.getLast?_eq_none_iff] at hL
      rw [hL] at hlt
      simp at hlt
    | some a => exact ⟨a, rfl⟩
  unfold erase
  rw [hlast]
  have hlen : ¬ ((s.elems.take i ++ s.elems.drop (i + 1)) ++ [last]).length = 0 := by
    simp
  simp only [popBack, hlen, if_false, Option.map_some]
  simp

end VH

/-! Claim theorems. -/

/-- C1: on the reallocating insertion path (size == capacity), both
implementations construct the new element at its destination index in the
new buffer before transferring the prefix and suffix of the old elements;
the run is memory-safe (never destroys a dead slot or constructs over a
live one); if the new-element construction, prefix transfer or suffix
transfer throws, the receiver — old buffer, elements, size and capacity —
is exactly as before, every object constructed in the new buffer has been
destroyed again by the time that buffer is released, and the error
propagates; only when all three sub-steps succeed are the old elements
destroyed and the grown buffer with the inserted element committed. -/
theorem C1_realloc_insertion_staged {α : Type} (useMove : Bool) (s : Vec α)
    (i : Nat) (v : α) (fuel : Fuel)
    (hi : i ≤ s.elems.length) (hfull : s.elems.length = s.cap) :
    (∃ r, VH.emplaceRealloc useMove s i v fuel = some r)
    ∧ P0.emplace useMove s i v fuel = VH.emplaceRealloc useMove s i v fuel
    ∧ (∀ e, VH.emplaceRealloc useMove s i v fuel = some (.error e)
        → e.self = s ∧ ∀ b ∈ e.released, ∀ o ∈ b, o = none)
    ∧ (∀ t j f1, VH.emplaceRealloc useMove s i v fuel = some (.ok (t, j, f1))
        → t = ⟨AV.growCap s.elems.length, s.elems.take i ++ v :: s.elems.drop i⟩
          ∧ j = i) := by
  have hP0 : P0.emplace useMove s i v fuel = VH.emplaceRealloc useMove s i v fuel := by
    rw [P0_emplace_eq_VH]
    simp [VH.emplace, hfull]
  refine ⟨?_, hP0, ?_, ?_⟩
  · rcases VH.emplaceRealloc_cases useMove s i v fuel hi with h | h | ⟨f1, h⟩ <;>
      exact ⟨_, h⟩
  · intro e he
    rcases VH.emplaceRealloc_cases useMove s i v fuel hi with h | h | ⟨f1, h⟩
    · rw [h] at he
      simp only [Option.some.injEq, Except.error.injEq] at he
      subst he
      exact ⟨rfl, by simp⟩
    · rw [h] at he
      simp only [Option.some.injEq, Except.error.injEq] at he
      subst he
      refine ⟨rfl, ?_⟩
      intro b hb
      simp only [Option.mem_def, Option.some.injEq] at hb
      subst hb
      intro o ho
      exact List.eq_of_mem_replicate ho
    · rw [h] at he
      simp at he
  · intro t j f1 he
    rcases VH.emplaceRealloc_cases useMove s i v fuel hi with h | h | ⟨f2, h⟩
    · rw [h] at he; simp at he
    · rw [h] at he; simp at he
    · rw [h] at he
      simp only [Option.some.injEq, Except.ok.injEq, Prod.mk.injEq] at he
      obtain ⟨ht, hj, _⟩ := he
      exact ⟨ht.symm, hj.symm⟩

/-- Witness for C1 at a concrete full vector, pos 1, a fuel making the
suffix transfer throw. -/
theorem C1_realloc_insertion_staged_witness :
    (1 ≤ (Vec.mk 2 [10, 20] : Vec Nat).elems.length
      ∧ (Vec.mk 2 [10, 20] : Vec Nat).elems.length = (Vec.mk 2 [10, 20] : Vec Nat).cap)
    ∧ ((∃ r, VH.emplaceRealloc false (Vec.mk 2 [10, 20] : Vec Nat) 1 99 (some 3) = some r)
      ∧ P0.emplace false (Vec.mk 2 [10, 20] : Vec Nat) 1 99 (some 3)
          = VH.emplaceRealloc false (Vec.mk 2 [10, 20] : Vec Nat) 1 99 (some 3)
      ∧ (∀ e, VH.emplaceRealloc false (Vec.mk 2 [10, 20] : Vec Nat) 1 99 (some 3)
            = some (.error e)
          → e.self = Vec.mk 2 [10, 20] ∧ ∀ b ∈ e.released, ∀ o ∈ b, o = none)
      ∧ (∀ t j f1, VH.emplaceRealloc false (Vec.mk 2 [10, 20] : Vec Nat) 1 99 (some 3)
            = some (.ok (t, j, f1))
          → t = ⟨AV.growCap (Vec.mk 2 [10, 20] : Vec Nat).elems.length,
                (Vec.mk 2 [10, 20] : Vec Nat).elems.take 1
                  ++ 99 :: (Vec.mk 2 [10, 20] : Vec Nat).elems.drop 1⟩
            ∧ j = 1)) :=
  ⟨⟨by decide, by decide⟩,
    C1_realloc_insertion_staged false ⟨2, [10, 20]⟩ 1 99 (some 3) (by decide) (by decide)⟩

/-- C2 counterexample to the claim as stated: the in-place branch of copy
assignment (rhs fits in the capacity) is not transactional in the element
values — with the target holding [1, 2] and the source [5, 6], a throw on
the second element copy-assignment escapes leaving the elements [5, 2],
not the prior [1, 2]. -/
theorem C2_counterexample :
    AV.copyAssign (Vec.mk 2 [1, 2] : Vec Nat) (Vec.mk 2 [5, 6]) false (some 1)
      = .error ⟨2, [5, 2]⟩
    ∧ ([5, 2] : List Nat) ≠ [1, 2] :=
  ⟨rfl, by decide⟩

/-- C2 (amended): every public mutating operation is transactional with
respect to (size, capacity, element values), except that (a) the in-place
branch of copy assignment preserves size and capacity on a mid-way failure
but may leave a part of the element values already overwritten, and
(b) Resize beyond the current capacity preserves size and element values on
a tail-construction failure but may leave the capacity already grown; the
constructors produce either a complete object or none at all, Reserve and
insertion are fully strong, and PopBack, Erase (on valid positions) and the
move operations never fail. -/
theorem C2_transactional_amended {α : Type} (useMove : Bool) (dflt v : α)
    (s rhs : Vec α) (n i : Nat) (fuel : Fuel) (hi : i ≤ s.elems.length) :
    (∀ t f1, AV.sizedCtor dflt n fuel = .ok (t, f1) → t = ⟨n, List.replicate n dflt⟩)
    ∧ (∀ t f1, AV.copyCtor rhs fuel = .ok (t, f1) → t = ⟨rhs.elems.length, rhs.elems⟩)
    ∧ (∀ e, AV.reserve useMove s n fuel = .error e → e = s)
    ∧ (∀ t f1, AV.reserve useMove s n fuel = .ok (t, f1)
        → t.elems = s.elems ∧ t.cap = (if n ≤ s.cap then s.cap else n))
    ∧ (∀ e, AV.resize useMove dflt s n fuel = .error e
        → e.elems = s.elems ∧ (e.cap = s.cap ∨ e.cap = n) ∧ (n ≤ s.cap → e = s))
    ∧ (s.cap < rhs.elems.length
        → ∀ e, AV.copyAssign s rhs false fuel = .error e → e = s)
    ∧ (rhs.elems.length ≤ s.cap
        → ∀ e, AV.copyAssign s rhs false fuel = .error e
        → e.cap = s.cap ∧ e.elems.length = s.elems.length)
    ∧ (rhs.elems.length ≤ s.cap
        → ∀ t f1, AV.copyAssign s rhs false fuel = .ok (t, f1) → t = ⟨s.cap, rhs.elems⟩)
    ∧ (∀ e, VH.emplace useMove s i v fuel = some (.error e) → e.self = s)
    ∧ (0 < s.elems.length → VH.popBack s = some ⟨s.cap, s.elems.dropLast⟩)
    ∧ (i < s.elems.length
        → VH.erase s i = some (⟨s.cap, s.elems.take i ++ s.elems.drop (i + 1)⟩, i))
    ∧ AV.moveAssign s rhs = (rhs, s) := by
  refine ⟨?_, ?_, ?_, ?_, ?_, ?_, ?_, ?_, ?_, ?_, ?_, rfl⟩
  · intro t f1 h
    exact AV.sizedCtor_ok dflt n fuel t f1 h
  · intro t f1 h
    exact AV.copyCtor_ok rhs fuel t f1 h
  · intro e h
    exact AV.reserve_error useMove s n fuel e h
  · intro t f1 h
    exact AV.reserve_ok useMove s n fuel t f1 h
  · intro e h
    exact AV.resize_error useMove dflt s n fuel e h
  · intro hlt e h
    exact (AV.copyAssign_slow s rhs fuel hlt).1 e h
  · intro hle e h
    exact AV.copyAssign_inplace_error s rhs fuel e hle h
  · intro hle t f1 h
    exact AV.copyAssign_inplace_ok s rhs fuel t f1 hle h
  · intro e h
    exact (VH.emplace_error_spec useMove s i v fuel e hi h).1
  · intro hpos
    have hne : ¬ s.elems.length = 0 := by omega
    simp [VH.popBack, hne]
  · intro hlt
    exact VH.erase_spec s i hlt

/-- Witness for C2 at concrete states. -/
theorem C2_transactional_amended_witness :
    1 ≤ (Vec.mk 2 [1, 2] : Vec Nat).elems.length
    ∧ ((∀ t f1, AV.sizedCtor (0 : Nat) 3 (some 1) = .ok (t, f1)
          → t = ⟨3, List.replicate 3 0⟩)
      ∧ (∀ t f1, AV.copyCtor (Vec.mk 1 [9] : Vec Nat) (some 1) = .ok (t, f1)
          → t = ⟨(Vec.mk 1 [9] : Vec Nat).elems.length, (Vec.mk 1 [9] : Vec Nat).elems⟩)
      ∧ (∀ e, AV.reserve false (Vec.mk 2 [1, 2] : Vec Nat) 3 (some 1) = .error e
          → e = Vec.mk 2 [1, 2])
      ∧ (∀ t f1, AV.reserve false (Vec.mk 2 [1, 2] : Vec Nat) 3 (some 1) = .ok (t, f1)
          → t.elems = (Vec.mk 2 [1, 2] : Vec Nat).elems
            ∧ t.cap = (if 3 ≤ (Vec.mk 2 [1, 2] : Vec Nat).cap
                then (Vec.mk 2 [1, 2] : Vec Nat).cap else 3))
      ∧ (∀ e, AV.resize false (0 : Nat) (Vec.mk 2 [1, 2]) 3 (some 1) = .error e
          → e.elems = (Vec.mk 2 [1, 2] : Vec Nat).elems
            ∧ (e.cap = (Vec.mk 2 [1, 2] : Vec Nat).cap ∨ e.cap = 3)
            ∧ (3 ≤ (Vec.mk 2 [1, 2] : Vec Nat).cap → e = Vec.mk 2 [1, 2]))
      ∧ ((Vec.mk 2 [1, 2] : Vec Nat).cap < (Vec.mk 1 [9] : Vec Nat).elems.length
          → ∀ e, AV.copyAssign (Vec.mk 2 [1, 2] : Vec Nat) (Vec.mk 1 [9]) false (some 1)
              = .error e
          → e = Vec.mk 2 [1, 2])
      ∧ ((Vec.mk 1 [9] : Vec Nat).elems.length ≤ (Vec.mk 2 [1, 2] : Vec Nat).cap
          → ∀ e, AV.copyAssign (Vec.mk 2 [1, 2] : Vec Nat) (Vec.mk 1 [9]) false (some 1)
              = .error e
          → e.cap = (Vec.mk 2 [1, 2] : Vec Nat).cap
            ∧ e.elems.length = (Vec.mk 2 [1, 2] : Vec Nat).elems.length)
      ∧ ((Vec.mk 1 [9] : Vec Nat).elems.length ≤ (Vec.mk 2 [1, 2] : Vec Nat).cap
          → ∀ t f1, AV.copyAssign (Vec.mk 2 [1, 2] : Vec Nat) (Vec.mk 1 [9]) false (some 1)
              = .ok (t, f1)
          → t = ⟨(Vec.mk 2 [1, 2] : Vec Nat).cap, (Vec.mk 1 [9] : Vec Nat).elems⟩)
      ∧ (∀ e, VH.emplace false (Vec.mk 2 [1, 2] : Vec Nat) 1 (5 : Nat) (some 1)
            = some (.error e)
          → e.self = Vec.mk 2 [1, 2])
      ∧ (0 < (Vec.mk 2 [1, 2] : Vec Nat).elems.length
          → VH.popBack (Vec.mk 2 [1, 2] : Vec Nat)
              = some ⟨(Vec.mk 2 [1, 2] : Vec Nat).cap,
                  (Vec.mk 2 [1, 2] : Vec Nat).elems.dropLast⟩)
      ∧ (1 < (Vec.mk 2 [1, 2] : Vec Nat).elems.length
          → VH.erase (Vec.mk 2 [1, 2] : Vec Nat) 1
              = some (⟨(Vec.mk 2 [1, 2] : Vec Nat).cap,
                  (Vec.mk 2 [1, 2] : Vec Nat).elems.take 1
                    ++ (Vec.mk 2 [1, 2] : Vec Nat).elems.drop 2⟩, 1))
      ∧ AV.moveAssign (Vec.mk 2 [1, 2] : Vec Nat) (Vec.mk 1 [9])
          = (Vec.mk 1 [9], Vec.mk 2 [1, 2])) :=
  ⟨by decide,
    C2_transactional_amended false 0 5 ⟨2, [1, 2]⟩ ⟨1, [9]⟩ 3 1 (some 1) (by decide)⟩

/-- C3 counterexample to the claim as stated: move assignment is an
unconditional swap, so moving [7, 8] into a target holding [5] leaves the
source with the target's old single element — Size() is 1, not 0. -/
theorem C3_counterexample :
    (AV.moveAssign (Vec.mk 1 [5] : Vec Nat) (Vec.mk 2 [7, 8])).2.elems.length ≠ 0 := by
  decide

/-- C3 (amended): move construction and move assignment are total (never
throw); move construction leaves the source empty (Size() == 0); move
assignment swaps, so the source ends holding the target's previous state
and has Size() == 0 exactly when the target was empty before. -/
theorem C3_move_amended {α : Type} (a b : Vec α) :
    AV.moveCtor b = (b, ⟨0, []⟩)
    ∧ (AV.moveCtor b).2.elems.length = 0
    ∧ AV.moveAssign a b = (b, a)
    ∧ ((AV.moveAssign a b).2.elems.length = 0 ↔ a.elems.length = 0) :=
  ⟨rfl, rfl, rfl, Iff.rfl⟩

/-- C4: evaluating the RawMemory move operations at a concrete buffer.  The
move constructor reads the source members without resetting them — the
source still holds the same handle and capacity 5 instead of the claimed
(null, 0) — while move assignment does reset the source.  Letting both
owners be destroyed would release the same handle twice. -/
theorem C4_rawmemory_movector_keeps_source :
    (RawMem.moveCtor ⟨some 7, 5⟩).2 = ⟨some 7, 5⟩
    ∧ (RawMem.moveCtor ⟨some 7, 5⟩).2 ≠ ⟨none, 0⟩
    ∧ RawMem.moveAssign ⟨some 1, 2⟩ ⟨some 7, 5⟩ = (⟨some 7, 5⟩, ⟨none, 0⟩) :=
  ⟨rfl, by decide, rfl⟩

/-- C5: copy assignment into a vector whose capacity cannot hold the source
builds a complete temporary copy and swaps it in: a failure anywhere leaves
the receiver exactly as it was, and success installs a copy of the source
with capacity equal to the source's size. -/
theorem C5_copy_assign_slow_path_strong {α : Type} (s rhs : Vec α) (fuel : Fuel)
    (hlt : s.cap < rhs.elems.length) :
    (∀ e, AV.copyAssign s rhs false fuel = .error e → e = s)
    ∧ (∀ t f1, AV.copyAssign s rhs false fuel = .ok (t, f1)
        → t = ⟨rhs.elems.length, rhs.elems⟩) :=
  AV.copyAssign_slow s rhs fuel hlt

/-- Witness for C5 at a concrete pair where the allocation throws. -/
theorem C5_copy_assign_slow_path_strong_witness :
    (Vec.mk 0 ([] : List Nat)).cap < (Vec.mk 1 [4] : Vec Nat).elems.length
    ∧ ((∀ e, AV.copyAssign (Vec.mk 0 [] : Vec Nat) (Vec.mk 1 [4]) false (some 0) = .error e
          → e = Vec.mk 0 [])
      ∧ (∀ t f1, AV.copyAssign (Vec.mk 0 [] : Vec Nat) (Vec.mk 1 [4]) false (some 0)
            = .ok (t, f1)
          → t = ⟨(Vec.mk 1 [4] : Vec Nat).elems.length, (Vec.mk 1 [4] : Vec Nat).elems⟩)) :=
  ⟨by decide, C5_copy_assign_slow_path_strong ⟨0, []⟩ ⟨1, [4]⟩ (some 0) (by decide)⟩

/-- C6: starting from the default-constructed vector, after k consecutive
successful PushBack calls (arbitrary values, no intervening Reserve) the
capacity equals the schedule obtained by applying max(1, 2 x capacity)
exactly at the steps where size == capacity, and the elements are the k
pushed values in order (so Size() == k). -/
theorem C6_pushback_growth_schedule {α : Type} (useMove : Bool) (vs : Nat → α) (k : Nat) :
    (AV.pushN useMove vs k).cap = (specGrowth k).2
    ∧ (AV.pushN useMove vs k).elems = (List.range k).map vs
    ∧ (AV.pushN useMove vs k).elems.length = (specGrowth k).1 := by
  have main : (AV.pushN useMove vs k).cap = (specGrowth k).2
      ∧ (AV.pushN useMove vs k).elems = (List.range k).map vs := by
    induction k with
    | zero => exact ⟨rfl, rfl⟩
    | succ k ih =>
      obtain ⟨hcap, hel⟩ := ih
      have hlen : (AV.pushN useMove vs k).elems.length = k := by
        rw [hel, List.length_map, List.length_range]
      have hspec : (specGrowth (k + 1)).2
          = if (specGrowth k).1 = (specGrowth k).2
            then max 1 (2 * (specGrowth k).2) else (specGrowth k).2 := rfl
      constructor
      · simp only [AV.pushN]
        rw [AV.pushBack_spec]
        simp only [hlen, hcap, hspec, AV.specGrowth_size k]
        by_cases hk : k = (specGrowth k).2
        · rw [if_pos hk, if_pos hk, AV.growCap_eq_spec, ← hk]
        · rw [if_neg hk, if_neg hk]
      · simp only [AV.pushN]
        rw [AV.pushBack_spec]
        simp only [hel]
        rw [List.range_succ, List.map_append]
        rfl
  refine ⟨main.1, main.2, ?_⟩
  rw [main.2, List.length_map, List.length_range, AV.specGrowth_size]

/-- C7: under the precondition size > 0, PopBack of either file destroys
exactly the last element (the remaining elements are the previous ones up
to the last), decrements size by one, and never fails; violating the
precondition has no defined result (vector.h stops on its debug assertion,
part_000 destroys a nonexistent element). -/
theorem C7_popback (s : Vec Nat) (hpos : 0 < s.elems.length) :
    VH.popBack s = some ⟨s.cap, s.elems.dropLast⟩
    ∧ P0.popBack s = some ⟨s.cap, s.elems.dropLast⟩
    ∧ s.elems.dropLast.length = s.elems.length - 1
    ∧ s.elems.dropLast = s.elems.take (s.elems.length - 1) := by
  have hne : ¬ s.elems.length = 0 := by omega
  refine ⟨by simp [VH.popBack, hne], by simp [P0.popBack, hne],
    List.length_dropLast _, List.dropLast_eq_take _⟩

/-- Witness for C7 on a two-element vector. -/
theorem C7_popback_witness :
    0 < (Vec.mk 4 [7, 8] : Vec Nat).elems.length
    ∧ (VH.popBack (Vec.mk 4 [7, 8] : Vec Nat)
          = some ⟨(Vec.mk 4 [7, 8] : Vec Nat).cap, (Vec.mk 4 [7, 8] : Vec Nat).elems.dropLast⟩
      ∧ P0.popBack (Vec.mk 4 [7, 8] : Vec Nat)
          = some ⟨(Vec.mk 4 [7, 8] : Vec Nat).cap, (Vec.mk 4 [7, 8] : Vec Nat).elems.dropLast⟩
      ∧ (Vec.mk 4 [7, 8] : Vec Nat).elems.dropLast.length
          = (Vec.mk 4 [7, 8] : Vec Nat).elems.length - 1
      ∧ (Vec.mk 4 [7, 8] : Vec Nat).elems.dropLast
          = (Vec.mk 4 [7, 8] : Vec Nat).elems.take ((Vec.mk 4 [7, 8] : Vec Nat).elems.length - 1)) :=
  ⟨by decide, C7_popback ⟨4, [7, 8]⟩ (by decide)⟩

/-- C8: the two implementations are extensionally equal on every operation
whose text differs between the files (Emplace with its reallocation logic,
PopBack, Erase), for every element type, state, position, value and
exception schedule; all remaining member functions are byte-identical
between the two files, so the containers are observably the same. -/
theorem C8_implementations_agree :
    (∀ (α : Type) (useMove : Bool) (s : Vec α) (i : Nat) (v : α) (fuel : Fuel),
        P0.emplace useMove s i v fuel = VH.emplace useMove s i v fuel)
    ∧ (∀ (α : Type) (s : Vec α), P0.popBack s = VH.popBack s)
    ∧ (∀ (α : Type) (s : Vec α) (i : Nat), P0.erase s i = VH.erase s i) :=
  ⟨fun _ useMove s i v fuel => P0_emplace_eq_VH useMove s i v fuel,
   fun _ s => P0_popBack_eq_VH s,
   fun _ s i => P0_erase_eq_VH s i⟩

/-- C9: a committed Insert/Emplace returns the iterator to index
pos - begin, where the new element now lives; Erase returns the iterator to
the erased index, and the slot there now holds the element that followed
(both indices read as none exactly when the returned iterator is end()). -/
theorem C9_insert_erase_return_values {α : Type} (useMove : Bool) (s : Vec α)
    (i : Nat) (v : α) (fuel : Fuel) (hi : i ≤ s.elems.length) :
    (∀ t j f1, VH.emplace useMove s i v fuel = some (.ok (t, j, f1))
        → j = i ∧ t.elems.get? i = some v)
    ∧ (i < s.elems.length
        → VH.erase s i = some (⟨s.cap, s.elems.take i ++ s.elems.drop (i + 1)⟩, i)
          ∧ (s.elems.take i ++ s.elems.drop (i + 1)).get? i = s.elems.get? (i + 1)) := by
  have hlen_take : (s.elems.take i).length = i := by
    rw [List.length_take]
    omega
  constructor
  · intro t j f1 h
    obtain ⟨hj, hel, _⟩ := VH.emplace_ok_shape useMove s i v fuel t j f1 hi h
    refine ⟨hj, ?_⟩
    rw [hel]
    have := AV.get_len_append (s.elems.take i) v (s.elems.drop i)
    rwa [hlen_take] at this
  · intro hlt
    refine ⟨VH.erase_spec s i hlt, ?_⟩
    have h1 : (s.elems.take i ++ s.elems.drop (i + 1)).get? i
        = (s.elems.drop (i + 1)).get? 0 := by
      have := AV.get_len_append_gen (s.elems.take i) (s.elems.drop (i + 1)) 0
      rwa [hlen_take, Nat.add_zero] at this
    have hlen_take1 : (s.elems.take (i + 1)).length = i + 1 := by
      rw [List.length_take]
      omega
    have h2 : s.elems.get? (i + 1) = (s.elems.drop (i + 1)).get? 0 := by
      conv_lhs => rw [← List.take_append_drop (i + 1) s.elems]
      have := AV.get_len_append_gen (s.elems.take (i + 1)) (s.elems.drop (i + 1)) 0
      rwa [hlen_take1, Nat.add_zero] at this
    rw [h1, h2]

/-- Witness for C9: insert 99 at index 1 of [1, 2, 3] and erase index 1 of
the same vector. -/
theorem C9_insert_erase_return_values_witness :
    1 ≤ (Vec.mk 4 [1, 2, 3] : Vec Nat).elems.length
    ∧ ((∀ t j f1, VH.emplace false (Vec.mk 4 [1, 2, 3] : Vec Nat) 1 99 none
          = some (.ok (t, j, f1))
        → j = 1 ∧ t.elems.get? 1 = some 99)
      ∧ (1 < (Vec.mk 4 [1, 2, 3] : Vec Nat).elems.length
        → VH.erase (Vec.mk 4 [1, 2, 3] : Vec Nat) 1
            = some (⟨(Vec.mk 4 [1, 2, 3] : Vec Nat).cap,
                (Vec.mk 4 [1, 2, 3] : Vec Nat).elems.take 1
                  ++ (Vec.mk 4 [1, 2, 3] : Vec Nat).elems.drop 2⟩, 1)
          ∧ ((Vec.mk 4 [1, 2, 3] : Vec Nat).elems.take 1
              ++ (Vec.mk 4 [1, 2, 3] : Vec Nat).elems.drop 2).get? 1
              = (Vec.mk 4 [1, 2, 3] : Vec Nat).elems.get? 2)) :=
  ⟨by decide, C9_insert_erase_return_values false ⟨4, [1, 2, 3]⟩ 1 99 none (by decide)⟩

/-- C10: copy self-assignment takes the this != &rhs branch and is a
complete no-op — the state is returned unchanged and the fuel is returned
unspent, so no element was copied or destroyed and no failure is
possible. -/
theorem C10_self_assignment_noop {α : Type} (s : Vec α) (fuel : Fuel) :
    AV.copyAssign s s true fuel = .ok (s, fuel) := rfl
